import Mathlib

/-!
Verification of the plat-mjml persistent email job queue and delivery engine.

The Go source is embedded shallowly:

* the `emails` table is a `List Job`; one SQL transaction is one pure
  function from store state to store state (SQLite serializes
  transactions, so a trace of concurrent claimers is a sequence of such
  atomic steps);
* `time.Time` values are nanosecond counts modelled as `Int`;
* error messages are `List Char` so that the SMTP-code substring
  classifier can be stated over the same strings the code builds;
* the mail transport, template renderer and rate limiter are abstracted
  as the results they hand back to the engine (per-recipient optional
  error, `Except` render result, optional limiter error), exactly the
  data the engine code inspects.
-/

namespace PlatMjml

/-- Email lifecycle status, the values stored in the `status` column of
the `emails` table: 'pending', 'processing', 'sent', 'retry', 'failed'. -/
inductive Status where
  | pending
  | processing
  | sent
  | retry
  | failed
deriving DecidableEq, Repr

/-- A row of the `emails` table (the fields of `queue.EmailJob` /
`model.Emails` that the queue logic reads or writes). Times are
nanosecond counts; `scheduledAt = none` models a NULL `scheduled_at`. -/
structure Job where
  id : String
  templateSlug : String
  recipients : List (List Char)
  subject : String
  status : Status
  priority : Int
  attempts : Int
  maxAttempts : Int
  scheduledAt : Option Int
  error : Option (List Char)
  createdAt : Int
deriving DecidableEq, Repr

/-- The eligibility filter of `Queue.Receive` / `customEmailsModel.Receive`:
`status in ('pending', 'retry') and (scheduled_at is null or
scheduled_at <= datetime('now'))`. -/
def eligible (now : Int) (j : Job) : Bool :=
  (j.status == Status.pending || j.status == Status.retry) &&
  (match j.scheduledAt with
   | none => true
   | some t => t ≤ now)

/-- Predicate `better a b` holds when row `a` strictly precedes row `b` under the
claim query's `order by priority desc, created_at asc`. -/
def better (a b : Job) : Bool :=
  a.priority > b.priority || (a.priority == b.priority && a.createdAt < b.createdAt)

/-- The `limit 1` row of the ordered claim query: a row of the list that
no other row strictly precedes (earlier rows win full ties, matching a
stable scan). -/
def selectBest : List Job → Option Job
  | [] => none
  | j :: js =>
      match selectBest js with
      | none => some j
      | some k => if better k j then some k else some j

/-- The `update emails set status = 'processing', updated_at = ... where
id = ?` step of the claim transaction, applied to every row the WHERE
clause matches. -/
def markProcessing (i : String) (s : List Job) : List Job :=
  s.map fun r => if r.id == i then { r with status := Status.processing } else r

/-- Result of a database call as the Go code distinguishes it:
a row, `sqlx.ErrNotFound`, or another error. -/
inductive DbResult (α : Type) where
  | found (a : α)
  | notFound
  | failure (m : List Char)
deriving DecidableEq, Repr

/-- The body of the `TransactCtx` closure in `Queue.Receive`: SELECT the
best eligible row (no row gives `sqlx.ErrNotFound`), then UPDATE it to
'processing'. Returns the selected row as read (before the update) and
the updated store. -/
def receiveTx (now : Int) (s : List Job) : DbResult Job × List Job :=
  match selectBest (s.filter (eligible now)) with
  | none => (.notFound, s)
  | some j => (.found j, markProcessing j.id s)

/-- Model of `Queue.Receive` / `customEmailsModel.Receive`: the switch on the
transaction error maps `sqlx.ErrNotFound` to `(nil, nil)` — an absent
job with a nil error — and any other error through unchanged. -/
def receive (now : Int) (s : List Job) : Except (List Char) (Option Job) × List Job :=
  match receiveTx now s with
  | (.found j, s2) => (.ok (some j), s2)
  | (.notFound, s2) => (.ok none, s2)
  | (.failure m, s2) => (.error m, s2)

lemma better_irrefl (a : Job) : better a a = false := by
  simp [better]

lemma better_asymm {a b : Job} (h : better a b = true) : better b a = false := by
  simp only [better, Bool.or_eq_true, decide_eq_true_eq, Bool.and_eq_true, beq_iff_eq] at h
  rw [← Bool.not_eq_true]
  simp only [better, Bool.or_eq_true, decide_eq_true_eq, Bool.and_eq_true, beq_iff_eq]
  omega

lemma notBetter_trans {a b c : Job} (hab : better a b = false) (hbc : better b c = false) :
    better a c = false := by
  rw [← Bool.not_eq_true] at hab hbc ⊢
  simp only [better, Bool.or_eq_true, decide_eq_true_eq, Bool.and_eq_true, beq_iff_eq]
    at hab hbc ⊢
  omega

lemma selectBest_nil_iff {l : List Job} : selectBest l = none ↔ l = [] := by
  cases l with
  | nil => simp [selectBest]
  | cons a as =>
      simp only [selectBest]
      cases selectBest as with
      | none => simp
      | some k =>
          by_cases hb : better k a = true <;> simp [hb]

lemma selectBest_mem {l : List Job} : ∀ {j : Job}, selectBest l = some j → j ∈ l := by
  induction l with
  | nil => intro j h; simp [selectBest] at h
  | cons a as ih =>
      intro j h
      simp only [selectBest] at h
      cases hsel : selectBest as with
      | none =>
          rw [hsel] at h
          simp only [Option.some.injEq] at h
          subst h
          exact List.mem_cons_self a as
      | some k0 =>
          rw [hsel] at h
          by_cases hb : better k0 a = true
          · simp [hb] at h
            subst h
            exact List.mem_cons_of_mem a (ih hsel)
          · simp only [Bool.not_eq_true] at hb
            simp [hb] at h
            subst h
            exact List.mem_cons_self a as

lemma selectBest_not_better {l : List Job} :
    ∀ {j : Job}, selectBest l = some j → ∀ k ∈ l, better k j = false := by
  induction l with
  | nil => intro j h; simp [selectBest] at h
  | cons a as ih =>
      intro j h
      simp only [selectBest] at h
      cases hsel : selectBest as with
      | none =>
          rw [hsel] at h
          simp only [Option.some.injEq] at h
          subst h
          have hnil : as = [] := selectBest_nil_iff.mp hsel
          subst hnil
          intro k hk
          simp only [List.mem_singleton] at hk
          subst hk
          exact better_irrefl k
      | some k0 =>
          rw [hsel] at h
          by_cases hb : better k0 a = true
          · simp [hb] at h
            subst h
            intro k hk
            rcases List.mem_cons.mp hk with rfl | hk2
            · exact better_asymm hb
            · exact ih hsel k hk2
          · simp only [Bool.not_eq_true] at hb
            simp [hb] at h
            subst h
            intro k hk
            rcases List.mem_cons.mp hk with rfl | hk2
            · exact better_irrefl k
            · exact notBetter_trans (ih hsel k hk2) hb

/-- Claim C1: `Receive` considers exactly the jobs with status 'pending' or
'retry' whose `scheduledAt` is unset or not after now; among those it
returns a job that no other eligible job precedes under priority
descending then createdAt ascending, transitions that job's row to
'processing' in the store while leaving every other row unchanged, and
when no job is eligible it returns an absent job with a nil error and
leaves the store untouched. -/
theorem receive_claims_best_eligible (now : Int) (s : List Job) :
    (∀ j s2, receive now s = (.ok (some j), s2) →
      eligible now j = true ∧ j ∈ s ∧
      (∀ k ∈ s, eligible now k = true → better k j = false) ∧
      (∀ r ∈ s2, r.id = j.id → r.status = Status.processing) ∧
      (∀ r ∈ s2, r.id ≠ j.id → r ∈ s)) ∧
    ((∀ k ∈ s, eligible now k = false) → receive now s = (.ok none, s)) := by
  constructor
  · intro j s2 h
    unfold receive receiveTx at h
    cases hsel : selectBest (s.filter (eligible now)) with
    | none => rw [hsel] at h; simp at h
    | some j0 =>
        rw [hsel] at h
        simp only [Prod.mk.injEq, Except.ok.injEq, Option.some.injEq] at h
        obtain ⟨rfl, rfl⟩ := h
        have hmem := selectBest_mem hsel
        have helig : eligible now j0 = true := (List.mem_filter.mp hmem).2
        refine ⟨helig, (List.mem_filter.mp hmem).1, ?_, ?_, ?_⟩
        · intro k hk hke
          exact selectBest_not_better hsel k (List.mem_filter.mpr ⟨hk, hke⟩)
        · intro r hr hid
          unfold markProcessing at hr
          obtain ⟨r0, _, hr0⟩ := List.mem_map.mp hr
          by_cases h0 : r0.id == j0.id
          · simp only [h0, if_true] at hr0
            subst hr0; rfl
          · simp only [h0, Bool.false_eq_true, if_false] at hr0
            subst hr0
            exact absurd hid (by simpa using h0)
        · intro r hr hid
          unfold markProcessing at hr
          obtain ⟨r0, hr0mem, hr0⟩ := List.mem_map.mp hr
          by_cases h0 : r0.id == j0.id
          · simp only [h0, if_true] at hr0
            subst hr0
            exact absurd (by simpa using h0) hid
          · simp only [h0, Bool.false_eq_true, if_false] at hr0
            subst hr0; exact hr0mem
  · intro hall
    unfold receive receiveTx
    have : s.filter (eligible now) = [] := by
      rw [List.filter_eq_nil_iff]
      intro a ha
      simp [hall a ha]
    rw [this]
    simp [selectBest]

/-- A normal-priority pending job, created first. -/
def jobA : Job :=
  { id := "a", templateSlug := "welcome", recipients := ["a@x.com".toList],
    subject := "Hi", status := Status.pending, priority := 1, attempts := 0,
    maxAttempts := 3, scheduledAt := none, error := none, createdAt := 5 }

/-- A high-priority retry job, created later than `jobA`. -/
def jobB : Job :=
  { id := "b", templateSlug := "alert", recipients := ["b@x.com".toList],
    subject := "Alert", status := Status.retry, priority := 2, attempts := 1,
    maxAttempts := 3, scheduledAt := some 7, error := none, createdAt := 9 }

theorem receive_claims_best_eligible_witness :
    eligible 10 jobB = true ∧ jobB ∈ [jobA, jobB] ∧ better jobA jobB = false := by
  have h := (receive_claims_best_eligible 10 [jobA, jobB]).1 jobB
    (markProcessing ("b") [jobA, jobB]) (by rfl)
  exact ⟨h.1, h.2.1, h.2.2.1 jobA (by simp) (by decide)⟩

/-- A serialized trace of atomic claim transactions: each step runs one
`Receive` claim transaction against the store left by the previous one
(the interleaving of any number of concurrent claimers, since each
transaction is indivisible). Returns the jobs handed to each caller and
the final store. -/
def receiveSteps : List Int → List Job → List (Option Job) × List Job
  | [], s => ([], s)
  | now :: rest, s =>
      let r := receiveTx now s
      let out : Option Job :=
        match r.1 with
        | .found j => some j
        | _ => none
      let next := receiveSteps rest r.2
      (out :: next.1, next.2)

/-- How many of the per-caller results hand out a job with id `i`. -/
def claimsOf (i : String) (outs : List (Option Job)) : Nat :=
  outs.countP fun o =>
    match o with
    | some j => j.id == i
    | none => false

/-- Every row of the store carrying id `i` is in status 'processing'. -/
def allProcessing (i : String) (s : List Job) : Prop :=
  ∀ r ∈ s, r.id = i → r.status = Status.processing

lemma markProcessing_allProcessing (i i2 : String) {s : List Job}
    (h : allProcessing i s) : allProcessing i (markProcessing i2 s) := by
  intro r hr hid
  unfold markProcessing at hr
  obtain ⟨r0, hr0mem, hr0⟩ := List.mem_map.mp hr
  by_cases h0 : r0.id == i2
  · simp only [h0, if_true] at hr0
    subst hr0; rfl
  · simp only [h0, Bool.false_eq_true, if_false] at hr0
    subst hr0
    exact h r0 hr0mem hid

lemma markProcessing_self (i : String) (s : List Job) :
    allProcessing i (markProcessing i s) := by
  intro r hr hid
  unfold markProcessing at hr
  obtain ⟨r0, _, hr0⟩ := List.mem_map.mp hr
  by_cases h0 : r0.id == i
  · simp only [h0, if_true] at hr0
    subst hr0; rfl
  · simp only [h0, Bool.false_eq_true, if_false] at hr0
    subst hr0
    exact absurd hid (by simpa using h0)

lemma receiveTx_found_allProcessing {now : Int} {s s2 : List Job} {j : Job}
    (h : receiveTx now s = (.found j, s2)) : allProcessing j.id s2 := by
  unfold receiveTx at h
  cases hsel : selectBest (s.filter (eligible now)) with
  | none => rw [hsel] at h; simp at h
  | some j0 =>
      rw [hsel] at h
      simp only [Prod.mk.injEq, DbResult.found.injEq] at h
      obtain ⟨rfl, rfl⟩ := h
      exact markProcessing_self j0.id s

lemma receiveTx_allProcessing (i : String) (now : Int) {s : List Job}
    (h : allProcessing i s) : allProcessing i (receiveTx now s).2 := by
  unfold receiveTx
  cases selectBest (s.filter (eligible now)) with
  | none => exact h
  | some j0 => exact markProcessing_allProcessing i j0.id h

lemma receiveTx_not_reclaimed {i : String} {now : Int} {s s2 : List Job} {j : Job}
    (hall : allProcessing i s) (h : receiveTx now s = (.found j, s2)) : j.id ≠ i := by
  unfold receiveTx at h
  cases hsel : selectBest (s.filter (eligible now)) with
  | none => rw [hsel] at h; simp at h
  | some j0 =>
      rw [hsel] at h
      simp only [Prod.mk.injEq, DbResult.found.injEq] at h
      intro hid
      have hmem := selectBest_mem hsel
      have helig := (List.mem_filter.mp hmem).2
      have hproc := hall j0 (List.mem_filter.mp hmem).1 (by rw [h.1]; exact hid)
      simp [eligible, hproc] at helig

lemma claimsOf_zero_of_allProcessing (i : String) (nows : List Int) :
    ∀ {s : List Job}, allProcessing i s → claimsOf i (receiveSteps nows s).1 = 0 := by
  induction nows with
  | nil => intro s _; simp [receiveSteps, claimsOf]
  | cons now rest ih =>
      intro s hall
      rcases hrx : receiveTx now s with ⟨r1, s2⟩
      have hp : allProcessing i s2 := by
        have h2 := receiveTx_allProcessing i now hall
        rw [hrx] at h2
        exact h2
      have hrec := ih hp
      cases r1 with
      | found j =>
          have hne : j.id ≠ i := receiveTx_not_reclaimed hall hrx
          simp only [receiveSteps, hrx, claimsOf, List.countP_cons] at hrec ⊢
          simp [hrec, hne]
      | notFound =>
          simp only [receiveSteps, hrx, claimsOf, List.countP_cons] at hrec ⊢
          simp [hrec]
      | failure m =>
          simp only [receiveSteps, hrx, claimsOf, List.countP_cons] at hrec ⊢
          simp [hrec]

/-- Claim C2: in any serialized trace of atomic claim transactions — the
possible interleavings of any number of concurrent `Receive` callers,
each transaction being one indivisible select-and-transition against the
store — at most one caller is ever handed a job with a given id, from
any starting store. -/
theorem receive_mutual_exclusion (nows : List Int) (s : List Job) (i : String) :
    claimsOf i (receiveSteps nows s).1 ≤ 1 := by
  induction nows generalizing s with
  | nil => simp [receiveSteps, claimsOf]
  | cons now rest ih =>
      rcases hrx : receiveTx now s with ⟨r1, s2⟩
      cases r1 with
      | found j =>
          by_cases hid : j.id = i
          · have hall : allProcessing i s2 := by
              rw [← hid]
              exact receiveTx_found_allProcessing hrx
            have hz := claimsOf_zero_of_allProcessing i rest hall
            simp only [receiveSteps, hrx, claimsOf, List.countP_cons] at hz ⊢
            simp [hz, hid]
          · have hrec := ih s2
            simp only [receiveSteps, hrx, claimsOf, List.countP_cons] at hrec ⊢
            simpa [hid] using hrec
      | notFound =>
          have hrec := ih s2
          simp only [receiveSteps, hrx, claimsOf, List.countP_cons] at hrec ⊢
          simpa using hrec
      | failure m =>
          have hrec := ih s2
          simp only [receiveSteps, hrx, claimsOf, List.countP_cons] at hrec ⊢
          simpa using hrec

/-- Model of `delivery.Config` with durations in nanoseconds, as `time.Duration`
stores them. -/
structure Config where
  MaxRetries : Int
  RetryBackoff : Int
  MaxBackoff : Int
  RateLimit : Int
deriving DecidableEq, Repr

/-- Model of `delivery.DefaultConfig`: 3 retries, 5-minute base backoff, 4-hour
cap, 60 emails per minute (durations in nanoseconds). -/
def DefaultConfig : Config :=
  { MaxRetries := 3, RetryBackoff := 300000000000,
    MaxBackoff := 14400000000000, RateLimit := 60 }

/-- Wrap-around of Go's signed 64-bit integer multiplication result:
reduce into `[-2^63, 2^63)` modulo `2^64` (the literals are `2^63` and
`2^64`). -/
def int64wrap (x : Int) : Int :=
  (x + 9223372036854775808) % 18446744073709551616 - 9223372036854775808

/-- Model of `Engine.calculateBackoff`: `RetryBackoff * Duration(math.Pow(2,
attempts-1))`, capped at `MaxBackoff`. For exponents `0 ≤ attempts-1 ≤
62` the float64 `math.Pow` is an exact power of two and its conversion
to `time.Duration` is exact, so the only machine effect left is the
wrap-around of the int64 duration multiplication, modelled by
`int64wrap`. -/
def calculateBackoff (cfg : Config) (attempts : Int) : Int :=
  let backoff := int64wrap (cfg.RetryBackoff * 2 ^ (attempts - 1).toNat)
  if backoff > cfg.MaxBackoff then cfg.MaxBackoff else backoff

/-- The SMTP terminal reply codes of `isPermanentFailure`. -/
def permanentCodes : List (List Char) :=
  ["550".toList, "551".toList, "552".toList, "553".toList, "554".toList]

/-- Model of `strings.Contains`: `sub` occurs as a contiguous substring of the
message. -/
def containsSub (sub : List Char) : List Char → Bool
  | [] => sub.isEmpty
  | c :: rest => sub.isPrefixOf (c :: rest) || containsSub sub rest

/-- Model of `delivery.isPermanentFailure`: the error text contains one of the
codes 550–554. -/
def isPermanentFailure (msg : List Char) : Bool :=
  permanentCodes.any fun code => containsSub code msg

/-- The store transition `Engine.handleError` chooses: `MarkFailed`
(with a 'failed' event) or `MarkRetry` at `now + backoff` (with a
'retry' event). -/
inductive Outcome where
  | failed (errMsg : List Char)
  | retry (retryAt : Int) (errMsg : List Char)
deriving DecidableEq, Repr

/-- Model of `Engine.handleError`: bump the attempt count, mark failed when the
error is permanent or attempts are exhausted, otherwise schedule a retry
after the computed backoff. -/
def handleError (cfg : Config) (email : Job) (msg : List Char) (now : Int) : Outcome :=
  let attempts := email.attempts + 1
  if isPermanentFailure msg || decide (attempts ≥ email.maxAttempts) then
    Outcome.failed msg
  else
    Outcome.retry (now + calculateBackoff cfg attempts) msg

/-- Effect of the chosen outcome on the job's row: `MarkFailed` sets
status 'failed', records the error and increments `attempts`;
`MarkRetry` sets status 'retry', records the error, increments
`attempts` and sets `scheduled_at` to the retry time. -/
def applyOutcome (o : Outcome) (email : Job) : Job :=
  match o with
  | .failed m =>
      { email with status := Status.failed, error := some m,
                   attempts := email.attempts + 1 }
  | .retry t m =>
      { email with status := Status.retry, error := some m,
                   attempts := email.attempts + 1, scheduledAt := some t }

/-- The `eventType` that `recordEvent` receives for each outcome. -/
def eventOf (o : Outcome) : String :=
  match o with
  | .failed _ => "failed"
  | .retry _ _ => "retry"

/-- Claim C3: an error whose text contains one of the substrings 550–554 is
classified permanent and `handleError` marks the job 'failed' with a
'failed' event after exactly one more attempt, for every job and thus
regardless of `maxAttempts`; an error containing none of those
substrings is not classified permanent. -/
theorem handleError_permanent_classification (cfg : Config) (email : Job)
    (msg : List Char) (now : Int) :
    (isPermanentFailure msg = true →
      handleError cfg email msg now = Outcome.failed msg ∧
      eventOf (handleError cfg email msg now) = "failed" ∧
      (applyOutcome (handleError cfg email msg now) email).status = Status.failed ∧
      (applyOutcome (handleError cfg email msg now) email).attempts
        = email.attempts + 1) ∧
    ((∀ code ∈ permanentCodes, containsSub code msg = false) →
      isPermanentFailure msg = false) := by
  constructor
  · intro hperm
    simp [handleError, hperm, applyOutcome, eventOf]
  · intro hnone
    simp only [isPermanentFailure, List.any_eq_false]
    intro code hcode
    simp [hnone code hcode]

/-- A permanent SMTP rejection text. -/
def msgPermanentEx : List Char := "smtp 550 mailbox unavailable".toList

/-- A transient failure text containing no terminal SMTP code. -/
def msgTransientEx : List Char := "connection timed out".toList

theorem handleError_permanent_classification_witness :
    handleError DefaultConfig jobA msgPermanentEx 0 = Outcome.failed msgPermanentEx ∧
    (applyOutcome (handleError DefaultConfig jobA msgPermanentEx 0) jobA).attempts = 1 ∧
    isPermanentFailure msgTransientEx = false := by
  have h1 := (handleError_permanent_classification DefaultConfig jobA
    msgPermanentEx 0).1 (by decide)
  have h2 := (handleError_permanent_classification DefaultConfig jobA
    msgTransientEx 0).2 (by decide)
  exact ⟨h1.1, h1.2.2.2.trans (by decide), h2⟩

lemma int64wrap_eq_self {x : Int} (h0 : 0 ≤ x) (h1 : x < 9223372036854775808) :
    int64wrap x = x := by
  unfold int64wrap
  omega

/-- Claim C4 counterexample: with the default configuration (5-minute base),
`calculateBackoff` at attempt 26 is not `min(base * 2^25, maxBackoff)` —
the int64 duration multiplication wraps to a negative value — and the
result decreases from attempt 25 to attempt 26, refuting both the closed
form and monotonicity for all attempts ≥ 1. -/
theorem calculateBackoff_overflow_cex :
    calculateBackoff DefaultConfig 26 ≠
      min (DefaultConfig.RetryBackoff * 2 ^ (25 : Nat)) DefaultConfig.MaxBackoff ∧
    calculateBackoff DefaultConfig 26 < calculateBackoff DefaultConfig 25 ∧
    calculateBackoff DefaultConfig 26 < 0 := by
  refine ⟨?_, ?_, ?_⟩ <;> decide

/-- Claim C4 amended: as long as `base * 2^(attempt-1)` stays below `2^63` (no
int64 overflow — in particular throughout the at-most-`maxAttempts`
retries the engine ever performs with default configuration),
`calculateBackoff` is the pure, deterministic function
`min(base * 2^(attempt-1), maxBackoff)`; it never exceeds `maxBackoff`
and is non-decreasing in the attempt number over that range. -/
theorem calculateBackoff_amended (cfg : Config) (a b : Int)
    (h1 : 1 ≤ a) (hab : a ≤ b) (hbase : 0 ≤ cfg.RetryBackoff)
    (hov : cfg.RetryBackoff * 2 ^ (b - 1).toNat < 9223372036854775808) :
    calculateBackoff cfg a = min (cfg.RetryBackoff * 2 ^ (a - 1).toNat) cfg.MaxBackoff ∧
    calculateBackoff cfg a ≤ cfg.MaxBackoff ∧
    calculateBackoff cfg a ≤ calculateBackoff cfg b := by
  have hpow : (2 : Int) ^ (a - 1).toNat ≤ 2 ^ (b - 1).toNat :=
    pow_le_pow_right₀ (by norm_num) (Int.toNat_le_toNat (by omega))
  have hXa_le_Xb : cfg.RetryBackoff * 2 ^ (a - 1).toNat
      ≤ cfg.RetryBackoff * 2 ^ (b - 1).toNat :=
    mul_le_mul_of_nonneg_left hpow hbase
  have hXa_nonneg : 0 ≤ cfg.RetryBackoff * 2 ^ (a - 1).toNat :=
    mul_nonneg hbase (by positivity)
  have hXb_nonneg : 0 ≤ cfg.RetryBackoff * 2 ^ (b - 1).toNat :=
    mul_nonneg hbase (by positivity)
  have hwa : int64wrap (cfg.RetryBackoff * 2 ^ (a - 1).toNat)
      = cfg.RetryBackoff * 2 ^ (a - 1).toNat :=
    int64wrap_eq_self hXa_nonneg (lt_of_le_of_lt hXa_le_Xb hov)
  have hwb : int64wrap (cfg.RetryBackoff * 2 ^ (b - 1).toNat)
      = cfg.RetryBackoff * 2 ^ (b - 1).toNat :=
    int64wrap_eq_self hXb_nonneg hov
  unfold calculateBackoff
  rw [hwa, hwb]
  set Xa := cfg.RetryBackoff * 2 ^ (a - 1).toNat with hXa
  set Xb := cfg.RetryBackoff * 2 ^ (b - 1).toNat with hXb
  refine ⟨?_, ?_, ?_⟩
  · simp only [min_def, gt_iff_lt]
    split_ifs <;> omega
  · simp only [gt_iff_lt]
    split_ifs <;> omega
  · simp only [gt_iff_lt]
    split_ifs <;> omega

theorem calculateBackoff_amended_witness :
    (1 : Int) ≤ 1 ∧ (1 : Int) ≤ 25 ∧
    (0 : Int) ≤ DefaultConfig.RetryBackoff ∧
    DefaultConfig.RetryBackoff * 2 ^ ((25 : Int) - 1).toNat < 9223372036854775808 ∧
    calculateBackoff DefaultConfig 1
      = min (DefaultConfig.RetryBackoff * 2 ^ ((1 : Int) - 1).toNat)
          DefaultConfig.MaxBackoff ∧
    calculateBackoff DefaultConfig 1 ≤ DefaultConfig.MaxBackoff ∧
    calculateBackoff DefaultConfig 1 ≤ calculateBackoff DefaultConfig 25 := by
  have h := calculateBackoff_amended DefaultConfig 1 25
    (by decide) (by decide) (by decide) (by decide)
  exact ⟨by decide, by decide, by decide, by decide, h.1, h.2.1, h.2.2⟩

/-- Claim C5: for a non-permanent failure whose incremented attempt count is
still below `maxAttempts`, `handleError` schedules a retry: the job row
gets exactly one more attempt, status 'retry', `scheduledAt = now +
calculateBackoff(attempts+1)`, the error recorded, and a 'retry' event
is emitted. -/
theorem handleError_retry_path (cfg : Config) (email : Job) (msg : List Char)
    (now : Int) (hperm : isPermanentFailure msg = false)
    (hatt : email.attempts + 1 < email.maxAttempts) :
    handleError cfg email msg now =
      Outcome.retry (now + calculateBackoff cfg (email.attempts + 1)) msg ∧
    eventOf (handleError cfg email msg now) = "retry" ∧
    (applyOutcome (handleError cfg email msg now) email).status = Status.retry ∧
    (applyOutcome (handleError cfg email msg now) email).attempts
      = email.attempts + 1 ∧
    (applyOutcome (handleError cfg email msg now) email).scheduledAt
      = some (now + calculateBackoff cfg (email.attempts + 1)) ∧
    (applyOutcome (handleError cfg email msg now) email).error = some msg := by
  have hcond : (isPermanentFailure msg
      || decide (email.attempts + 1 ≥ email.maxAttempts)) = false := by
    simp [hperm]
    omega
  simp [handleError, hcond, applyOutcome, eventOf]

theorem handleError_retry_path_witness :
    isPermanentFailure msgTransientEx = false ∧
    jobA.attempts + 1 < jobA.maxAttempts ∧
    (applyOutcome (handleError DefaultConfig jobA msgTransientEx 0) jobA).attempts = 1 ∧
    (applyOutcome (handleError DefaultConfig jobA msgTransientEx 0) jobA).status
      = Status.retry ∧
    (applyOutcome (handleError DefaultConfig jobA msgTransientEx 0) jobA).scheduledAt
      = some 300000000000 := by
  have h := handleError_retry_path DefaultConfig jobA msgTransientEx 0
    (by decide) (by decide)
  exact ⟨by decide, by decide, h.2.2.2.1.trans (by decide), h.2.2.1,
    h.2.2.2.2.1.trans (by decide)⟩

/-- One per-recipient failure entry, `fmt.Sprintf("send to %s: %v",
recipient, err)`. -/
def fmtSendErr (recipient errText : List Char) : List Char :=
  "send to ".toList ++ recipient ++ ": ".toList ++ errText

/-- Model of `strings.Join(errs, "; ")`. -/
def joinSemi : List (List Char) → List Char
  | [] => []
  | [x] => x
  | x :: xs => x ++ "; ".toList ++ joinSemi xs

/-- The per-recipient send loop of `Engine.processJob`: run `mail.Send`
for each recipient in order, appending a formatted entry to
`sendErrors` on failure and never breaking out of the loop. The mailer
collaborator is `send : recipient → Option errText`. Returns the
recipients actually handed to the mailer (in call order) and the
collected `sendErrors`. -/
def sendLoop (send : List Char → Option (List Char)) (recipients : List (List Char)) :
    List (List Char) × List (List Char) :=
  recipients.foldl
    (fun acc r =>
      (acc.1 ++ [r],
       match send r with
       | some e => acc.2 ++ [fmtSendErr r e]
       | none => acc.2))
    ([], [])

/-- What `Engine.processJob` does after a successful render: if any
recipient failed, one single `handleError` call with the joined
composite error (then return); otherwise `MarkSent`. -/
inductive ProcResult where
  | sentOk
  | handled (o : Outcome)
deriving DecidableEq, Repr

/-- The send-and-classify tail of `Engine.processJob`. -/
def processSends (cfg : Config) (email : Job)
    (send : List Char → Option (List Char)) (now : Int) : ProcResult :=
  let errs := (sendLoop send email.recipients).2
  if errs.isEmpty then ProcResult.sentOk
  else ProcResult.handled (handleError cfg email (joinSemi errs) now)

lemma sendLoop_go (send : List Char → Option (List Char)) :
    ∀ (recipients : List (List Char)) (log errs : List (List Char)),
      recipients.foldl
        (fun acc r =>
          (acc.1 ++ [r],
           match send r with
           | some e => acc.2 ++ [fmtSendErr r e]
           | none => acc.2))
        (log, errs)
      = (log ++ recipients,
         errs ++ recipients.filterMap fun r => (send r).map (fmtSendErr r)) := by
  intro recipients
  induction recipients with
  | nil => intro log errs; simp
  | cons r rs ih =>
      intro log errs
      simp only [List.foldl_cons, List.filterMap_cons]
      cases hs : send r with
      | none => rw [ih]; simp [hs]
      | some e => rw [ih]; simp [hs]

/-- Claim C6: the per-recipient loop of `processJob` hands every recipient to
the mailer, in order, whatever the earlier results were; and when at
least one send failed, processing performs exactly one failure-handling
step whose error is the "; "-joined aggregation of the per-recipient
failure entries. -/
theorem processJob_attempts_all_recipients (cfg : Config) (email : Job)
    (send : List Char → Option (List Char)) (now : Int) :
    (sendLoop send email.recipients).1 = email.recipients ∧
    (sendLoop send email.recipients).2
      = (email.recipients.filterMap fun r => (send r).map (fmtSendErr r)) ∧
    ((sendLoop send email.recipients).2 ≠ [] →
      processSends cfg email send now
        = ProcResult.handled
            (handleError cfg email (joinSemi (sendLoop send email.recipients).2) now)) := by
  have hgo := sendLoop_go send email.recipients [] []
  refine ⟨?_, ?_, ?_⟩
  · unfold sendLoop
    rw [hgo]
    simp
  · unfold sendLoop
    rw [hgo]
    simp
  · intro hne
    unfold processSends
    rw [if_neg]
    simpa using hne

/-- A mailer that rejects every recipient. -/
def sendRejectAll (r : List Char) : Option (List Char) :=
  some ("mailbox full for ".toList ++ r)

/-- A two-recipient job used to exercise the send loop. -/
def jobTwoRcpt : Job :=
  { jobA with recipients := ["a@x.com".toList, "b@x.com".toList] }

theorem processJob_attempts_all_recipients_witness :
    (sendLoop sendRejectAll jobTwoRcpt.recipients).1
      = ["a@x.com".toList, "b@x.com".toList] ∧
    processSends DefaultConfig jobTwoRcpt sendRejectAll 0
      = ProcResult.handled
          (handleError DefaultConfig jobTwoRcpt
            (joinSemi (sendLoop sendRejectAll jobTwoRcpt.recipients).2) 0) := by
  have h := processJob_attempts_all_recipients DefaultConfig jobTwoRcpt
    sendRejectAll 0
  exact ⟨h.1.trans (by decide), h.2.2 (by decide)⟩

/-- The per-recipient loop of `Engine.SendNow`: unlike `processJob`, it
returns on the first failing recipient (`return fmt.Errorf("send to %s:
%w", ...)`), leaving later recipients unattempted. Yields the recipients
handed to the mailer (in call order) and the first error, if any. -/
def sendNowLoop (send : List Char → Option (List Char)) :
    List (List Char) → List (List Char) × Option (List Char)
  | [] => ([], none)
  | r :: rs =>
      match send r with
      | some e => ([r], some (fmtSendErr r e))
      | none =>
          let next := sendNowLoop send rs
          (r :: next.1, next.2)

/-- Model of `Engine.SendNow`: wait on the rate limiter (its error aborts before
any render or send), render the template, then send to each recipient
stopping at the first failure. The store is passed through untouched:
the function creates no job row and schedules no retry. -/
def sendNow (limiterErr : Option (List Char))
    (render : Except (List Char) (List Char))
    (send : List Char → Option (List Char)) (recipients : List (List Char))
    (store : List Job) :
    List (List Char) × Except (List Char) Unit × List Job :=
  match limiterErr with
  | some e => ([], Except.error e, store)
  | none =>
      match render with
      | Except.error e => ([], Except.error ("render template: ".toList ++ e), store)
      | Except.ok _ =>
          match sendNowLoop send recipients with
          | (log, some e) => (log, Except.error e, store)
          | (log, none) => (log, Except.ok (), store)

/-- Claim C7 counterexample: with a mailer rejecting every recipient and two
recipients, `SendNow` hands only the first recipient to the mailer —
it does not attempt a send for every recipient, and the returned error
mentions only the first failure rather than an aggregation. -/
theorem sendNow_no_aggregation_cex :
    (sendNow none (Except.ok []) sendRejectAll
        ["a@x.com".toList, "b@x.com".toList] []).1
      ≠ ["a@x.com".toList, "b@x.com".toList] ∧
    (sendNow none (Except.ok []) sendRejectAll
        ["a@x.com".toList, "b@x.com".toList] []).2.1
      = Except.error (fmtSendErr "a@x.com".toList
          ("mailbox full for a@x.com".toList)) := by
  exact ⟨by decide, by rfl⟩

lemma sendNowLoop_all_ok (send : List Char → Option (List Char)) :
    ∀ rcpts : List (List Char), (∀ x ∈ rcpts, send x = none) →
      sendNowLoop send rcpts = (rcpts, none) := by
  intro rcpts
  induction rcpts with
  | nil => intro _; rfl
  | cons r rs ih =>
      intro hall
      have hr : send r = none := hall r (List.mem_cons_self r rs)
      simp only [sendNowLoop, hr]
      rw [ih fun x hx => hall x (List.mem_cons_of_mem r hx)]

lemma sendNowLoop_first_failure (send : List Char → Option (List Char)) :
    ∀ (pre : List (List Char)) (r : List Char) (post : List (List Char))
      (e : List Char), (∀ x ∈ pre, send x = none) → send r = some e →
      sendNowLoop send (pre ++ r :: post) = (pre ++ [r], some (fmtSendErr r e)) := by
  intro pre
  induction pre with
  | nil =>
      intro r post e _ hr
      simp [sendNowLoop, hr]
  | cons p ps ih =>
      intro r post e hall hr
      have hp : send p = none := hall p (List.mem_cons_self p ps)
      simp only [List.cons_append, sendNowLoop, hp, List.append_eq]
      rw [ih r post e (fun x hx => hall x (List.mem_cons_of_mem p hx)) hr]

/-- Claim C7 amended: `SendNow` waits on the rate limiter and returns its
error before attempting any send; when every send succeeds it has
attempted each recipient in order and returns success; when some
recipient fails it attempts only the recipients up to and including the
first failing one and returns that single per-recipient error directly
to the caller — and in every case the job store is untouched: no Job is
created and no retry is scheduled. -/
theorem sendNow_first_failure_direct (send : List Char → Option (List Char))
    (html : List Char) (store : List Job) :
    (∀ e rcpts, sendNow (some e) (Except.ok html) send rcpts store
        = ([], Except.error e, store)) ∧
    (∀ rcpts, (∀ x ∈ rcpts, send x = none) →
      sendNow none (Except.ok html) send rcpts store
        = (rcpts, Except.ok (), store)) ∧
    (∀ pre r post e, (∀ x ∈ pre, send x = none) → send r = some e →
      sendNow none (Except.ok html) send (pre ++ r :: post) store
        = (pre ++ [r], Except.error (fmtSendErr r e), store)) := by
  refine ⟨fun e rcpts => rfl, ?_, ?_⟩
  · intro rcpts hall
    simp [sendNow, sendNowLoop_all_ok send rcpts hall]
  · intro pre r post e hall hr
    simp [sendNow, sendNowLoop_first_failure send pre r post e hall hr]

/-- A mailer failing only for `b@x.com`. -/
def sendFailB (r : List Char) : Option (List Char) :=
  if r = "b@x.com".toList then some ("550 user unknown".toList) else none

theorem sendNow_first_failure_direct_witness :
    sendNow (some ("context canceled".toList)) (Except.ok []) sendFailB
        ["a@x.com".toList] []
      = ([], Except.error ("context canceled".toList), []) ∧
    sendNow none (Except.ok []) sendFailB
        ["a@x.com".toList, "b@x.com".toList, "c@x.com".toList] []
      = (["a@x.com".toList, "b@x.com".toList],
         Except.error (fmtSendErr "b@x.com".toList ("550 user unknown".toList)),
         []) := by
  have h := sendNow_first_failure_direct sendFailB [] []
  refine ⟨h.1 ("context canceled".toList) ["a@x.com".toList], ?_⟩
  have h3 := h.2.2 ["a@x.com".toList] ("b@x.com".toList) ["c@x.com".toList]
    ("550 user unknown".toList) (by decide) (by decide)
  exact h3

/-- Constant `queue.PriorityLow`: marketing, newsletters. -/
def PriorityLow : Int := 0

/-- Constant `queue.PriorityNormal`: transactional. -/
def PriorityNormal : Int := 1

/-- Constant `queue.PriorityHigh`: password reset, security alerts. -/
def PriorityHigh : Int := 2

/-- Model of `Queue.Enqueue`: fill the defaults (generated id when empty,
`maxAttempts = 3` when 0, `PriorityNormal` when priority is 0), stamp
`createdAt`, and INSERT the row with status 'pending' and `attempts = 0`
(the insert lists no error column, so the stored error is NULL).
`freshId` stands for the `uuid.New().String()` draw, and `writeOk`
for whether the INSERT succeeds; on a write failure the error is
returned and the store is unchanged. -/
def enqueue (freshId : String) (now : Int) (writeOk : Bool) (job : Job)
    (store : List Job) : Except (List Char) String × List Job :=
  let id2 := if job.id = "" then freshId else job.id
  let maxA := if job.maxAttempts = 0 then 3 else job.maxAttempts
  let prio := if job.priority = 0 then PriorityNormal else job.priority
  let row : Job :=
    { job with id := id2, status := Status.pending, priority := prio,
               attempts := 0, maxAttempts := maxA, error := none,
               createdAt := now }
  if writeOk then (Except.ok id2, store ++ [row])
  else (Except.error ("enqueue email: write failed".toList), store)

/-- Claim C8: a successful `Enqueue` appends exactly one row with status
'pending' and attempts 0; `maxAttempts` defaults to 3 and `priority` to
normal when the job supplies none (and are kept otherwise); a fresh id
is used exactly when the job's id is empty; the returned id is the
stored row's id; `createdAt` is stamped with now. On a storage write
failure an error is returned and the store is unchanged. -/
theorem enqueue_defaults (freshId : String) (now : Int) (job : Job)
    (store : List Job) :
    (∃ row : Job,
      (enqueue freshId now true job store).2 = store ++ [row] ∧
      (enqueue freshId now true job store).1 = Except.ok row.id ∧
      row.status = Status.pending ∧
      row.attempts = 0 ∧
      row.createdAt = now ∧
      (job.maxAttempts = 0 → row.maxAttempts = 3) ∧
      (job.maxAttempts ≠ 0 → row.maxAttempts = job.maxAttempts) ∧
      (job.priority = 0 → row.priority = PriorityNormal) ∧
      (job.id = "" → row.id = freshId) ∧
      (job.id ≠ "" → row.id = job.id)) ∧
    ((enqueue freshId now false job store).2 = store ∧
      (enqueue freshId now false job store).1
        = Except.error ("enqueue email: write failed".toList)) := by
  refine ⟨⟨{ job with
      id := if job.id = "" then freshId else job.id,
      status := Status.pending,
      priority := if job.priority = 0 then PriorityNormal else job.priority,
      attempts := 0,
      maxAttempts := if job.maxAttempts = 0 then 3 else job.maxAttempts,
      error := none, createdAt := now },
    rfl, rfl, rfl, rfl, rfl, ?_, ?_, ?_, ?_, ?_⟩, rfl, rfl⟩
  · intro h; simp [h]
  · intro h; simp [h]
  · intro h; simp [h]
  · intro h; simp [h]
  · intro h; simp [h]

/-- A job handed to `Enqueue` with every defaultable field unset. -/
def jobBlank : Job :=
  { id := "", templateSlug := "welcome", recipients := ["a@x.com".toList],
    subject := "Hi", status := Status.pending, priority := 0, attempts := 0,
    maxAttempts := 0, scheduledAt := none, error := none, createdAt := 0 }

theorem enqueue_defaults_witness :
    (enqueue ("id-1") 42 true jobBlank []).1 = Except.ok ("id-1") ∧
    (enqueue ("id-1") 42 false jobBlank []).2 = ([] : List Job) := by
  obtain ⟨⟨row, h1, h2, h3, h4, h5, hmax, _, hprio, hid, _⟩, hfail⟩ :=
    enqueue_defaults "id-1" 42 jobBlank []
  refine ⟨?_, hfail.1⟩
  rw [h2, hid (by rfl)]

/-- The row that `Enqueue` stores for `jobBlank`. -/
def jobBlankRow : Job :=
  { jobBlank with
    id := "id-2", status := Status.pending,
    priority := PriorityNormal, attempts := 0, maxAttempts := 3,
    error := none, createdAt := 7 }

/-- Claim C9: every row a successful `Enqueue` adds has priority different
from `PriorityLow` (a zero priority is replaced by `PriorityNormal`,
and only a zero priority is), so no job created through this interface
ever carries priority 0 and the defined `PriorityLow` level is
unreachable; in particular a job submitted with `priority =
PriorityLow` is stored with `PriorityNormal`. -/
theorem enqueue_priority_zero_unreachable (freshId : String) (now : Int)
    (job : Job) (store : List Job) :
    (∀ row ∈ (enqueue freshId now true job store).2,
      row ∈ store ∨ row.priority ≠ PriorityLow) ∧
    (job.priority = PriorityLow →
      (enqueue freshId now true job store).2
        = store ++ [{ job with
            id := if job.id = "" then freshId else job.id,
            status := Status.pending, priority := PriorityNormal,
            attempts := 0,
            maxAttempts := if job.maxAttempts = 0 then 3 else job.maxAttempts,
            error := none, createdAt := now }]) := by
  constructor
  · intro row hrow
    unfold enqueue at hrow
    simp only [if_true, List.mem_append, List.mem_singleton] at hrow
    rcases hrow with hmem | rfl
    · exact Or.inl hmem
    · right
      by_cases hp : job.priority = 0
      · simp [hp, PriorityNormal, PriorityLow]
      · simp [hp, PriorityLow]
  · intro hp
    unfold enqueue
    simp only [PriorityLow] at hp
    simp [hp]

theorem enqueue_priority_zero_unreachable_witness :
    jobBlankRow ∈ (enqueue ("id-2") 7 true jobBlank []).2 ∧
    (jobBlankRow ∈ ([] : List Job) ∨ jobBlankRow.priority ≠ PriorityLow) := by
  have h := (enqueue_priority_zero_unreachable "id-2" 7 jobBlank []).1
    jobBlankRow (by decide)
  exact ⟨by decide, h⟩

/-- Nanoseconds in `time.Minute`. -/
def nsPerMinute : Int := 60000000000

/-- The rate limiter `NewEngine` builds:
`rate.NewLimiter(rate.Every(time.Minute/time.Duration(cfg.RateLimit)), 1)`.
`time.Duration` division is int64 division, so `RateLimit = 0` is an
integer division by zero — a Go runtime panic, modelled as `none`.
Otherwise the result is the pair (token refill interval in nanoseconds,
burst size). -/
def newEngineLimiter (rateLimit : Int) : Option (Int × Int) :=
  if rateLimit = 0 then none
  else some (nsPerMinute / rateLimit, 1)

/-- Claim C10: constructing the engine with `RateLimit = 0` hits the
divide-by-zero panic; for every `RateLimit ≥ 1` the limiter exists with
burst size 1 and one token per `minute / RateLimit` nanoseconds. -/
theorem newEngine_rateLimit_panics_on_zero (r : Int) :
    newEngineLimiter 0 = none ∧
    (1 ≤ r → newEngineLimiter r = some (nsPerMinute / r, 1)) := by
  constructor
  · rfl
  · intro hr
    unfold newEngineLimiter
    rw [if_neg (by omega)]

theorem newEngine_rateLimit_panics_on_zero_witness :
    (1 : Int) ≤ 60 ∧ newEngineLimiter 60 = some (nsPerMinute / 60, 1) ∧
    nsPerMinute / 60 = 1000000000 := by
  have h := (newEngine_rateLimit_panics_on_zero 60).2 (by decide)
  exact ⟨by decide, h, by decide⟩

end PlatMjml
